import Mathlib

/-!
Verification of the upload orchestration and state-tracking engine of
`bilibili_uploader.py`: the upload-history ledger, the path resolver,
the split planner, and the retry/ordering state machine.

The Python classes are shallowly embedded as pure Lean functions.
External effects (rclone, ffmpeg, the biliup CLI, the filesystem) are
modelled by explicit oracle parameters giving each call's outcome, and
the calls a run performs are collected into explicit event traces.
Wall-clock timestamp fields of the records (`upload_time`,
`failed_time`) are elided: nothing below depends on them.
-/

namespace Biliup

/-! ## Ledger data model (`UploadHistory`)

A success record as written by `UploadHistory.add_success`
(`file_path`, `file_size`, `bvid`, `is_split`, `parts`).  `bvid` is an
`Option` because records loaded from disk may lack the key; Python
truthiness of the value is handled by `recordBvid?` below. -/

structure SuccessRecord where
  file_path : String
  file_size : Nat
  bvid : Option String
  is_split : Bool
  parts : List String
deriving DecidableEq, Repr

/-- A failure record as written by `UploadHistory.add_failed`
(`file_path`, `error_msg`). -/
structure FailedRecord where
  file_path : String
  error_msg : String
deriving DecidableEq, Repr

/-- The in-memory state of `UploadHistory`: the success log
(`self.history`) and the failure log (`self.failed`).  `_save_history`
and `_save_failed` swallow every exception, so the in-memory state and
the control flow of the program never depend on whether persistence
succeeded; the pure model below is therefore exact for every claim
about in-memory behaviour.  File contents are modelled separately (see
`LedgerFiles`). -/
structure UploadHistory where
  history : List SuccessRecord
  failed : List FailedRecord
deriving DecidableEq, Repr

/-- `UploadHistory.is_uploaded`: true iff some success record matches
both `file_path` and `file_size`. -/
def is_uploaded (h : UploadHistory) (file_path : String) (file_size : Nat) : Bool :=
  h.history.any fun r => r.file_path = file_path && r.file_size = file_size

/-- `UploadHistory.add_success`: unconditionally appends a new success
record.  The Python default `parts=None` and the `parts or []`
normalisation are modelled by an `Option` argument defaulted to `[]`. -/
def add_success (h : UploadHistory) (file_path : String) (file_size : Nat)
    (bvid : Option String) (is_split : Bool) (parts : Option (List String)) :
    UploadHistory :=
  ⟨h.history ++ [⟨file_path, file_size, bvid, is_split, parts.getD []⟩], h.failed⟩

/-- `UploadHistory.add_failed`: unconditionally appends a failure record. -/
def add_failed (h : UploadHistory) (file_path : String) (error_msg : String) :
    UploadHistory :=
  ⟨h.history, h.failed ++ [⟨file_path, error_msg⟩]⟩

/-- Number of success records carrying a given (path, size) fingerprint. -/
def countFingerprint (h : UploadHistory) (file_path : String) (file_size : Nat) : Nat :=
  (h.history.filter fun r => r.file_path = file_path && r.file_size = file_size).length

/-- Python truthiness of `record.get('bvid')`: both a missing key and an
empty string count as "no remote id". -/
def recordBvid? (r : SuccessRecord) : Option String :=
  match r.bvid with
  | none => none
  | some b => if b = "" then none else some b

/-- One record's verdict inside `UploadHistory.prune_invalid_records`:
kept iff it has a (truthy) bvid that the injected existence check
(`uploader.validate_bvid`) accepts. -/
def recordValid (validate : String → Bool) (r : SuccessRecord) : Bool :=
  match recordBvid? r with
  | none => false
  | some b => validate b

/-- The failure record `prune_invalid_records` appends for a removed
success record (`add_failed(file_path, "历史记录校验失败，稿件 {bvid} 不存在或已删除")`). -/
def pruneFailEntry (r : SuccessRecord) : FailedRecord :=
  ⟨r.file_path,
   "历史记录校验失败，稿件 " ++ ((recordBvid? r).getD "未知BV号") ++ " 不存在或已删除"⟩

/-- `UploadHistory.prune_invalid_records` (in-memory effect): partitions
the success log by `recordValid`, keeps the valid records, appends one
failure record per removed record, and returns
`(checked, removed) = (log length, number removed)`.  When nothing is
invalid the state is left untouched (the Python `if invalid_records:`
guard). -/
def prune_invalid_records (h : UploadHistory) (validate : String → Bool) :
    UploadHistory × Nat × Nat :=
  let valid := h.history.filter (recordValid validate)
  let invalid := h.history.filter fun r => !(recordValid validate r)
  if invalid.isEmpty then
    (h, h.history.length, 0)
  else
    (⟨valid, h.failed ++ invalid.map pruneFailEntry⟩, h.history.length, invalid.length)

/-- The skip performed while `_get_videos_to_upload` builds the batch
list: each selected video becomes the pair
`(remote_path, size) = (folder_name ++ "/" ++ video, sizes video)` and
is dropped (`continue`) when `is_uploaded` already holds for it.  The
extra display fields of the Python dict are irrelevant here and
projected away. -/
def get_videos_to_upload (h : UploadHistory) (folder_name : String)
    (selected : List String) (sizes : String → Nat) : List (String × Nat) :=
  selected.filterMap fun v =>
    let remote_path := folder_name ++ "/" ++ v
    let size := sizes v
    if is_uploaded h remote_path size then none else some (remote_path, size)

/-! ## Persisted ledger file (`_save_history`)

`_save_history` opens the history file with mode `'w'` (truncating it)
and streams `json.dump(self.history, f)` into it; there is no
temporary-file-and-rename step.  An exception raised part-way through
therefore leaves a proper prefix of the new serialization on disk, and
is then swallowed (`except ... logger.error`).  The JSON text itself is
abstracted by `serializeHistory`, a concrete rendering whose exact
shape is irrelevant to the claims; what matters is that the write
replaces the file with the new serialization incrementally. -/

/-- Rendering of one success record inside the persisted file
(abstraction of its JSON object). -/
def serializeSuccess (r : SuccessRecord) : String :=
  "[" ++ r.file_path ++ ", " ++ toString r.file_size ++ ", "
      ++ ((r.bvid).getD "null") ++ ", "
      ++ (if r.is_split then "true" else "false") ++ ", ["
      ++ String.intercalate ", " r.parts ++ "]]"

/-- Rendering of the whole success log (abstraction of `json.dump` of
the history list).  Always nonempty: it starts with `[`. -/
def serializeHistory (l : List SuccessRecord) : String :=
  "[" ++ String.intercalate ", " (l.map serializeSuccess) ++ "]"

/-- Rendering of the failure log file. -/
def serializeFailed (l : List FailedRecord) : String :=
  "[" ++ String.intercalate ", " (l.map fun r => "[" ++ r.file_path ++ ", " ++ r.error_msg ++ "]") ++ "]"

/-- Outcome of one `_save_history` call: the write either completes, or
an exception interrupts it after `k` characters have been written (the
file was already truncated by `open(..., 'w')`). -/
inductive SaveOutcome where
  | ok : SaveOutcome
  | failAfter (k : Nat) : SaveOutcome
deriving DecidableEq, Repr

/-- File content produced by `_save_history` for a given in-memory
success log: the full serialization on success, a prefix of it when the
write raises after `k` characters.  Either way the previous content is
gone (the open-for-write truncated it), and the exception is swallowed
so execution continues. -/
def save_history_file (hist : List SuccessRecord) (o : SaveOutcome) : String :=
  match o with
  | .ok => serializeHistory hist
  | .failAfter k => (serializeHistory hist).take k

/-- `UploadHistory` together with the persisted file contents. -/
structure LedgerFiles where
  historyMem : List SuccessRecord
  failedMem : List FailedRecord
  historyFile : String
  failedFile : String
deriving DecidableEq, Repr

/-- `prune_invalid_records` at file granularity.  The success-log write
(`self._save_history()`) runs with outcome `o`; the per-record
`add_failed` calls each rewrite the failure file, whose writes are
modelled as completing (the claim under study concerns the success
log).  When nothing is invalid, no file is touched. -/
def prune_invalid_records_files (st : LedgerFiles) (validate : String → Bool)
    (o : SaveOutcome) : LedgerFiles × Nat × Nat :=
  let valid := st.historyMem.filter (recordValid validate)
  let invalid := st.historyMem.filter fun r => !(recordValid validate r)
  if invalid.isEmpty then
    (st, st.historyMem.length, 0)
  else
    let failed' := st.failedMem ++ invalid.map pruneFailEntry
    (⟨valid, failed', save_history_file valid o, serializeFailed failed'⟩,
     st.historyMem.length, invalid.length)

/-! ## BV-id extraction (`BilibiliUploader.upload_video`)

After the external upload process exits, its captured output is
searched with `re.search(r'bvid:(BV\w+)', output)`; the bvid is
returned when found, and `None` otherwise — also when the process
exited with code 0. -/

/-- `\w` of the regex (ASCII portion: letters, digits, underscore). -/
def isWordChar (c : Char) : Bool :=
  c.isAlphanum || c == '_'

/-- Longest prefix of word characters (the greedy `\w+`). -/
def takeWordRun : List Char → List Char
  | [] => []
  | c :: cs => if isWordChar c then c :: takeWordRun cs else []

/-- Attempt to match `bvid:(BV\w+)` at the head of the character list;
returns the captured group. -/
def bvidAt : List Char → Option (List Char)
  | 'b' :: 'v' :: 'i' :: 'd' :: ':' :: 'B' :: 'V' :: cs =>
    match takeWordRun cs with
    | [] => none
    | run => some ('B' :: 'V' :: run)
  | _ => none

/-- Leftmost match of `bvid:(BV\w+)` (the semantics of `re.search`). -/
def searchBvid : List Char → Option (List Char)
  | [] => none
  | c :: cs =>
    match bvidAt (c :: cs) with
    | some r => some r
    | none => searchBvid cs

/-- `re.search(r'bvid:(BV\w+)', output)` and extraction of group 1. -/
def parse_bvid (output : String) : Option String :=
  (searchBvid output.data).map List.asString

/-- Result of `BilibiliUploader.upload_video` as a function of the
upload process's exit code and captured output: a nonzero exit code
raises, the handler returns `None`; with exit code 0 the bvid is parsed
from the output, and `None` is returned when no `bvid:BV...` token is
present ("上传成功但无法解析BV号"). -/
def upload_video_result (returncode : Int) (output : String) : Option String :=
  if returncode = 0 then parse_bvid output else none

/-! ## Split planner (`VideoProcessor.split_video`)

Python floats are modelled by `ℚ`; the claims' arithmetic
(`29 / 14.5`, `14.4 / 14.5`, `16 GiB / 2³⁰`) is exact in both float64
and `ℚ`.  The ffmpeg/ffprobe calls are oracles: `duration?` is the
ffprobe result (`None` on failure; Python also treats `0.0` as falsy),
and `materialized i` says whether the cut for 0-based index `i` left an
output file on disk. -/

/-- `num_parts = math.ceil(file_size_gb / max_size_gb)`; `range`
further clamps a non-positive count to an empty loop. -/
def num_parts (file_size_gb max_size_gb : ℚ) : Nat :=
  ⌈file_size_gb / max_size_gb⌉.toNat

/-- One ffmpeg cut invocation:
`ffmpeg -ss start -i video -t dur -c copy outFile`. -/
structure CutCmd where
  start : ℚ
  dur : ℚ
  outFile : String
deriving DecidableEq, Repr

/-- Deterministic segment file name
`os.path.join(output_dir, f"{base_name}_part{i+1}.flv")`. -/
def outName (output_dir base_name : String) (k : Nat) : String :=
  output_dir ++ "/" ++ base_name ++ "_part" ++ toString k ++ ".flv"

/-- The cut commands the split loop issues: for `i ∈ [0, n)`, a cut
starting at `i * part_duration` of length `part_duration`. -/
def split_cuts (output_dir base_name : String) (duration : ℚ) (n : Nat) : List CutCmd :=
  (List.range n).map fun (i : ℕ) =>
    ((⟨(i : ℚ) * (duration / (n : ℚ)), duration / (n : ℚ),
       outName output_dir base_name (i + 1)⟩ : CutCmd))

/-- The `output_files` accumulator of the split loop: index `i`'s file
is appended when it exists on disk, otherwise the failure is logged and
the loop continues with the next index. -/
def splitCollect (materialized : Nat → Bool) (output_dir base_name : String) :
    Nat → Nat → List String
  | _, 0 => []
  | i, rem + 1 =>
    if materialized i then
      outName output_dir base_name (i + 1) :: splitCollect materialized output_dir base_name (i + 1) rem
    else
      splitCollect materialized output_dir base_name (i + 1) rem

/-- `VideoProcessor.split_video`: returns the issued cut commands and
the resulting file list.  An undetermined duration (`None`, or `0.0`
which is falsy under `if not duration:`) aborts with no cuts and no
segments. -/
def split_video (output_dir base_name : String) (file_size_gb max_size_gb : ℚ)
    (duration? : Option ℚ) (materialized : Nat → Bool) : List CutCmd × List String :=
  let n := num_parts file_size_gb max_size_gb
  match duration? with
  | none => ([], [])
  | some d =>
    if d = 0 then ([], [])
    else (split_cuts output_dir base_name d n, splitCollect materialized output_dir base_name 0 n)

/-! ## Path resolver (`UploadController._get_video_path`)

Oracles: whether the remote is already mounted, whether a `mount()`
call would succeed, what `get_mounted_path` reports, the free disk
space, and whether a `download_file` call would succeed.  The external
calls actually performed are traced. -/

/-- External calls `_get_video_path` can make (beyond pure checks). -/
inductive PathEv where
  | mountCall : PathEv
  | downloadCall : PathEv
deriving DecidableEq, Repr

/-- Environment for one `_get_video_path` call. -/
structure PathEnv where
  alreadyMounted : Bool
  mountOk : Bool
  mountedPath : Option String
  free : Nat
  downloadOk : Bool

/-- Mount state after the lazy `mount()` attempt. -/
def mountedAfter (env : PathEnv) : Bool :=
  env.alreadyMounted || env.mountOk

/-- The path obtained from the mount branch: only consulted when no
split is required, and only useful when the mount is up and
`get_mounted_path` finds the file. -/
def mountResult (env : PathEnv) (needs_split : Bool) : Option String :=
  if needs_split then none
  else if mountedAfter env then env.mountedPath else none

/-- `UploadController._get_video_path`.  When no split is required it
first tries mounted access (mounting lazily); otherwise, and on a mount
miss, it checks `free_space - file_size < min_free_space_gb * 1024³`
before any download, rejecting with `None`; only past that check is
`download_file` invoked. -/
def get_video_path (env : PathEnv) (min_free_space_gb : ℚ) (size : Nat)
    (needs_split : Bool) (local_path : String) : List PathEv × Option String :=
  let mountEvs : List PathEv :=
    if needs_split || env.alreadyMounted then [] else [PathEv.mountCall]
  match mountResult env needs_split with
  | some p => (mountEvs, some p)
  | none =>
    if (env.free : ℚ) - (size : ℚ) < min_free_space_gb * 2 ^ 30 then
      (mountEvs, none)
    else if env.downloadOk then
      (mountEvs ++ [PathEv.downloadCall], some local_path)
    else
      (mountEvs ++ [PathEv.downloadCall], none)

/-! ## Orchestrator (`UploadController`)

`_upload_single_video` drives one task: a retry loop of
`retry_times` attempts, each attempt resolving a path and publishing
directly or segment-by-segment.  Publish-client calls are oracles on
the attempt number `a` and 1-based segment index `i`
(`create a i` = result of `BilibiliUploader.upload_video`,
`append a i` = result of `BilibiliUploader.append_video`), and each
call is recorded as a trace event.  Cover extraction is best-effort and
affects nothing verified here; cleanup touches only the scratch
directory.  Both are elided. -/

/-- Upload mode of a batch: `'new'` creates a video, `'append'` adds
parts to a pre-supplied bvid. -/
inductive Mode where
  | new : Mode
  | append : Mode
deriving DecidableEq, Repr

/-- One publish-client invocation, tagged with the 1-based segment
index (a non-split upload is its sole "segment 1"). -/
inductive Ev where
  | create (seg : Nat) : Ev
  | append (seg : Nat) : Ev
deriving DecidableEq, Repr

/-- Segment index of a publish call. -/
def evSeg : Ev → Nat
  | .create s => s
  | .append s => s

/-- `_upload_normal_video`: one publish call; mode `new` returns the
parsed bvid, mode `append` returns the target bvid on success and
`None` on failure. -/
def upload_normal_video (createRes : Option String) (appendRes : Bool)
    (mode : Mode) (target_bvid : Option String) : List Ev × Option String :=
  match mode with
  | .new => ([Ev.create 1], createRes)
  | .append => ([Ev.append 1], if appendRes then target_bvid else none)

/-- The append phase of `_upload_split_video`: publishes segments
`i, i+1, …` in order as parts of `result_bvid`, aborting the whole task
(`return None`) at the first failed append, with no call for any later
segment. -/
def appendLoop (ap : Nat → Bool) : Nat → List String → Option String → List Ev × Option String
  | _, [], result_bvid => ([], result_bvid)
  | i, _ :: rest, result_bvid =>
    if ap i then
      let r := appendLoop ap (i + 1) rest result_bvid
      (Ev.append i :: r.1, r.2)
    else
      ([Ev.append i], none)

/-- `_upload_split_video`: no segments means immediate failure; in mode
`new` segment 1 creates the remote video (aborting on failure) and the
remaining segments append to the bvid it yielded; in mode `append`
every segment (from index 1) appends to the pre-supplied target.  This
unrolls the Python loop's `if i == 1 and mode == 'new'` conditional,
which can only fire on the first iteration. -/
def upload_split_video (cr : Nat → Option String) (ap : Nat → Bool)
    (split_files : List String) (mode : Mode) (target_bvid : Option String) :
    List Ev × Option String :=
  match split_files, mode with
  | [], _ => ([], none)
  | _ :: rest, .new =>
    match cr 1 with
    | none => ([Ev.create 1], none)
    | some bvid =>
      let r := appendLoop ap 2 rest (some bvid)
      (Ev.create 1 :: r.1, r.2)
  | _ :: _, .append => appendLoop ap 1 split_files target_bvid

/-- Whether the publish call for segment `i` succeeds: in mode `new`
segment 1 is judged by the create call yielding a bvid, every other
case by the append call. -/
def pubOk (cr : Nat → Option String) (ap : Nat → Bool) (mode : Mode) (i : Nat) : Bool :=
  match mode, i with
  | .new, 1 => (cr 1).isSome
  | _, _ => ap i

/-- Per-task environment: identity of the source plus the outcome
oracles, indexed by attempt number (a retried task re-resolves its path
and re-splits from scratch, so every external call may differ between
attempts). -/
structure TaskEnv where
  remote_path : String
  size : Nat
  getPath : Nat → Option String
  splitFiles : Nat → List String
  create : Nat → Nat → Option String
  append : Nat → Nat → Bool

/-- The configuration values `_upload_single_video` consumes. -/
structure OrchCfg where
  max_file_size_gb : ℚ
  retry_times : Nat

/-- `size_gb > max_file_size_gb` with `size_gb = size / 1024³`
(line 1882–1884). -/
def needsSplit (cfg : OrchCfg) (size : Nat) : Bool :=
  decide ((size : ℚ) / 2 ^ 30 > cfg.max_file_size_gb)

/-- How one attempt ends: a recorded success (carrying the bvid the
ledger entry will store, per `bvid = result if mode == 'new' else
target_bvid`) or a raised error message. -/
inductive AttemptRes where
  | ok (bvid : Option String) : AttemptRes
  | err (msg : String) : AttemptRes
deriving DecidableEq, Repr

/-- The body of one retry attempt: resolve the path (raising
"无法获取视频文件" on failure), then publish via the split or the direct
route, raising "上传失败" when no bvid results. -/
def runAttempt (cfg : OrchCfg) (t : TaskEnv) (mode : Mode)
    (target_bvid : Option String) (a : Nat) : List Ev × AttemptRes :=
  match t.getPath a with
  | none => ([], .err "无法获取视频文件")
  | some _ =>
    let r :=
      if needsSplit cfg t.size then
        upload_split_video (t.create a) (t.append a) (t.splitFiles a) mode target_bvid
      else
        upload_normal_video (t.create a 1) (t.append a 1) mode target_bvid
    match r.2 with
    | some v => (r.1, .ok (match mode with | .new => some v | .append => target_bvid))
    | none => (r.1, .err "上传失败")

/-- The retry loop of `_upload_single_video`: attempt `a` with `rem+1`
attempts remaining; success appends the ledger entry (with no `parts`
argument) and stops, the final failure appends a failure entry with the
last error message, an earlier failure sleeps and retries. -/
def attemptLoop (cfg : OrchCfg) (t : TaskEnv) (mode : Mode) (target_bvid : Option String) :
    Nat → Nat → UploadHistory → List Ev × UploadHistory × Bool
  | _, 0, h => ([], h, false)
  | a, rem + 1, h =>
    let step := runAttempt cfg t mode target_bvid a
    match step.2 with
    | .ok bvid =>
      (step.1, add_success h t.remote_path t.size bvid (needsSplit cfg t.size) none, true)
    | .err msg =>
      if rem = 0 then
        (step.1, add_failed h t.remote_path msg, false)
      else
        let nxt := attemptLoop cfg t mode target_bvid (a + 1) rem h
        (step.1 ++ nxt.1, nxt.2.1, nxt.2.2)

/-- `_upload_single_video`: run the retry loop from attempt 0,
returning the publish-call trace, the updated ledger, and the success
flag. -/
def upload_single_video (cfg : OrchCfg) (t : TaskEnv) (mode : Mode)
    (target_bvid : Option String) (h : UploadHistory) : List Ev × UploadHistory × Bool :=
  attemptLoop cfg t mode target_bvid 0 cfg.retry_times h

/-- `_batch_upload_videos`: tasks are processed one at a time in order;
a task's failure never stops the loop.  Returns the per-task traces and
the final ledger. -/
def batch_upload_videos (cfg : OrchCfg) (mode : Mode) (target_bvid : Option String) :
    List TaskEnv → UploadHistory → List (List Ev) × UploadHistory
  | [], h => ([], h)
  | t :: rest, h =>
    let r := upload_single_video cfg t mode target_bvid h
    let r' := batch_upload_videos cfg mode target_bvid rest r.2.1
    (r.1 :: r'.1, r'.2)

/-! ## Theorems -/

/-- A task whose every publish attempt yields the same already-recorded
pair: used to exhibit the batch behaviour on duplicate fingerprints. -/
def dupTask : TaskEnv :=
  ⟨"g/v.flv", 100, fun _ => some "/tmp/v.flv", fun _ => [],
   fun _ _ => some "BVdup", fun _ _ => true⟩

/-- C1 (counterexample): the claim "the success log never contains two
entries with the same (path, size) fingerprint, and when the same pair
occurs twice in one batch, exactly one success entry results and the
second occurrence is skipped" is false on the code: running
`_batch_upload_videos` on a batch holding the same (path, size) pair
twice publishes both occurrences (two `create` calls) and appends two
success entries with the same fingerprint — `add_success` never
deduplicates and the batch loop never re-checks `is_uploaded`. -/
theorem claim1_counterexample :
    (batch_upload_videos ⟨15, 3⟩ .new none [dupTask, dupTask] ⟨[], []⟩).2.history =
      [⟨"g/v.flv", 100, some "BVdup", false, []⟩, ⟨"g/v.flv", 100, some "BVdup", false, []⟩]
    ∧ countFingerprint (batch_upload_videos ⟨15, 3⟩ .new none [dupTask, dupTask] ⟨[], []⟩).2
        "g/v.flv" 100 = 2
    ∧ (batch_upload_videos ⟨15, 3⟩ .new none [dupTask, dupTask] ⟨[], []⟩).1 =
        [[Ev.create 1], [Ev.create 1]] := by
  have hns : needsSplit ⟨15, 3⟩ 100 = false := by
    unfold needsSplit
    norm_num
  refine ⟨?_, ?_, ?_⟩ <;>
    simp [batch_upload_videos, upload_single_video, attemptLoop, runAttempt, hns,
      upload_normal_video, add_success, countFingerprint, dupTask]

/-- C1 (amended): after `add_success(path, size, …)`, `is_uploaded(path,
size)` returns true; `is_uploaded` holds exactly when at least one
success entry carries the fingerprint; `add_success` appends
unconditionally, so adding an already-recorded pair increments the
fingerprint's multiplicity (duplicates are possible); deduplication
happens only when the batch list is built — `_get_videos_to_upload`
excludes every pair already recorded at that moment. -/
theorem claim1_amended :
    (∀ (h : UploadHistory) (p : String) (s : Nat) (b : Option String) (sp : Bool)
       (ps : Option (List String)),
       is_uploaded (add_success h p s b sp ps) p s = true)
  ∧ (∀ (h : UploadHistory) (p : String) (s : Nat),
       is_uploaded h p s = true ↔ 0 < countFingerprint h p s)
  ∧ (∀ (h : UploadHistory) (p : String) (s : Nat) (b : Option String) (sp : Bool)
       (ps : Option (List String)),
       countFingerprint (add_success h p s b sp ps) p s = countFingerprint h p s + 1)
  ∧ (∀ (h : UploadHistory) (folder : String) (sel : List String) (sizes : String → Nat)
       (p : String) (s : Nat),
       (p, s) ∈ get_videos_to_upload h folder sel sizes → is_uploaded h p s = false) := by
  refine ⟨?_, ?_, ?_, ?_⟩
  · intro h p s b sp ps
    simp [is_uploaded, add_success]
  · intro h p s
    simp [is_uploaded, countFingerprint, List.length_pos, List.any_eq_true,
      List.filter_eq_nil_iff]
  · intro h p s b sp ps
    simp [countFingerprint, add_success, List.filter_append]
  · intro h folder sel sizes p s hmem
    rcases List.mem_filterMap.mp hmem with ⟨v, _, hv⟩
    by_cases hup : is_uploaded h (folder ++ "/" ++ v) (sizes v) = true
    · simp [hup] at hv
    · simp only [Bool.not_eq_true] at hup
      simp [hup] at hv
      rcases hv with ⟨hp, hs⟩
      rw [← hp, ← hs]
      exact hup

/-- C1 (witness): the amended theorem applied to a concrete ledger and
batch list — a pair already in the success log is absent from the list
`_get_videos_to_upload` builds, hence skipped. -/
theorem claim1_witness :
    is_uploaded ⟨[⟨"g/b.flv", 7, some "BV9", false, []⟩], []⟩ "g/a.flv" 5 = false :=
  claim1_amended.2.2.2 ⟨[⟨"g/b.flv", 7, some "BV9", false, []⟩], []⟩ "g" ["a.flv"]
    (fun _ => 5) "g/a.flv" 5 (by decide)

/-- The append phase publishes consecutive segment indices starting at
its initial index. -/
theorem appendLoop_map_evSeg (ap : Nat → Bool) :
    ∀ (rest : List String) (i : Nat) (rb : Option String),
      ((appendLoop ap i rest rb).1).map evSeg =
        List.range' i ((appendLoop ap i rest rb).1).length := by
  intro rest
  induction rest with
  | nil => intro i rb; simp [appendLoop]
  | cons s rest ih =>
    intro i rb
    by_cases hap : ap i
    · simp only [appendLoop, hap, if_true, List.map_cons, List.length_cons, evSeg]
      rw [ih (i + 1) rb, List.range'_succ]
    · simp [appendLoop, hap, evSeg, List.range'_one]

/-- The append phase makes at most one call per remaining segment. -/
theorem appendLoop_length_le (ap : Nat → Bool) :
    ∀ (rest : List String) (i : Nat) (rb : Option String),
      ((appendLoop ap i rest rb).1).length ≤ rest.length := by
  intro rest
  induction rest with
  | nil => intro i rb; simp [appendLoop]
  | cons s rest ih =>
    intro i rb
    by_cases hap : ap i
    · simpa [appendLoop, hap] using ih (i + 1) rb
    · simp [appendLoop, hap]

/-- Every append call of the phase except possibly the last one
succeeded. -/
theorem appendLoop_prefix_ok (ap : Nat → Bool) :
    ∀ (rest : List String) (i : Nat) (rb : Option String) (k : Nat),
      i ≤ k → k + 1 < i + ((appendLoop ap i rest rb).1).length → ap k = true := by
  intro rest
  induction rest with
  | nil => intro i rb k hik hk; simp [appendLoop] at hk; omega
  | cons s rest ih =>
    intro i rb k hik hk
    by_cases hap : ap i
    · rcases Nat.eq_or_lt_of_le hik with heq | hlt
      · exact heq ▸ hap
      · refine ih (i + 1) rb k hlt ?_
        simp only [appendLoop, hap, if_true, List.length_cons] at hk
        omega
    · simp [appendLoop, hap] at hk
      omega

/-- If all appends before segment `j` succeed and segment `j`'s append
fails (with `j` within range), the phase performs exactly the calls up
to `j` and returns `None`. -/
theorem appendLoop_abort (ap : Nat → Bool) :
    ∀ (rest : List String) (i : Nat) (rb : Option String) (j : Nat),
      i ≤ j → j < i + rest.length → ap j = false →
      (∀ k, i ≤ k → k < j → ap k = true) →
      ((appendLoop ap i rest rb).1).length = j + 1 - i ∧
        (appendLoop ap i rest rb).2 = none := by
  intro rest
  induction rest with
  | nil => intro i rb j hij hj _ _; simp at hj; omega
  | cons s rest ih =>
    intro i rb j hij hj hjf hprev
    rcases Nat.eq_or_lt_of_le hij with heq | hlt
    · subst heq
      exact ⟨by simp [appendLoop, hjf], by simp [appendLoop, hjf]⟩
    · have hai : ap i = true := hprev i le_rfl hlt
      have hrec := ih (i + 1) rb j hlt (by simp at hj; omega) hjf
        (fun k hk1 hk2 => hprev k (by omega) hk2)
      simp only [appendLoop, hai, if_true, List.length_cons]
      constructor
      · rw [hrec.1]
        omega
      · exact hrec.2

/-- `pubOk` in append mode is the append oracle. -/
theorem pubOk_append_mode (cr : Nat → Option String) (ap : Nat → Bool) (i : Nat) :
    pubOk cr ap .append i = ap i := rfl

/-- `pubOk` in new mode at any segment other than 1 is the append
oracle. -/
theorem pubOk_new_ne_one (cr : Nat → Option String) (ap : Nat → Bool) (i : Nat)
    (hi : i ≠ 1) : pubOk cr ap .new i = ap i := by
  match i, hi with
  | 0, _ => rfl
  | n + 2, _ => rfl

/-- C2: strict segment ordering with abort-on-first-failure in
`_upload_split_video`.  (1) The publish calls of a split upload are
exactly segments `1, 2, …, m` for some `m`, in that order; (2) a
segment is published only when every earlier segment's publish
succeeded (in mode `new`, segment 1's create yielded a bvid); (3) if
the first publish failure is at segment `j`, the calls are exactly
segments `1..j` — zero publish calls for any later segment — and the
task result is `None`. -/
theorem claim2_segment_ordering (cr : Nat → Option String) (ap : Nat → Bool)
    (segs : List String) (mode : Mode) (tb : Option String) :
    (((upload_split_video cr ap segs mode tb).1).map evSeg =
        List.range' 1 ((upload_split_video cr ap segs mode tb).1).length)
    ∧ (∀ j ∈ ((upload_split_video cr ap segs mode tb).1).map evSeg,
        ∀ i, 1 ≤ i → i < j → pubOk cr ap mode i = true)
    ∧ (∀ j, 1 ≤ j → j ≤ segs.length → pubOk cr ap mode j = false →
        (∀ i, 1 ≤ i → i < j → pubOk cr ap mode i = true) →
        ((upload_split_video cr ap segs mode tb).1).map evSeg = List.range' 1 j
        ∧ (upload_split_video cr ap segs mode tb).2 = none) := by
  match segs, mode with
  | [], mode =>
    refine ⟨by simp [upload_split_video], by simp [upload_split_video], ?_⟩
    intro j hj1 hj2 _ _
    simp at hj2
    omega
  | s :: rest, .append =>
    have hrw : upload_split_video cr ap (s :: rest) .append tb =
        appendLoop ap 1 (s :: rest) tb := rfl
    rw [hrw]
    have hmap := appendLoop_map_evSeg ap (s :: rest) 1 tb
    refine ⟨hmap, ?_, ?_⟩
    · intro j hj i hi1 hij
      rw [hmap] at hj
      have hjlt : j < 1 + ((appendLoop ap 1 (s :: rest) tb).1).length := by
        have := List.mem_range'.mp hj
        omega
      rw [pubOk_append_mode]
      exact appendLoop_prefix_ok ap (s :: rest) 1 tb i hi1 (by omega)
    · intro j hj1 hjlen hjf hprev
      have habort := appendLoop_abort ap (s :: rest) 1 tb j hj1
        (by simp only [List.length_cons] at hjlen ⊢; omega)
        (by rw [← pubOk_append_mode cr ap j]; exact hjf)
        (fun k hk1 hk2 => by rw [← pubOk_append_mode cr ap k]; exact hprev k hk1 hk2)
      refine ⟨?_, habort.2⟩
      have hlen : j + 1 - 1 = j := by omega
      rw [hmap, habort.1, hlen]
  | s :: rest, .new =>
    cases hcr : cr 1 with
    | none =>
      have hrw : upload_split_video cr ap (s :: rest) .new tb = ([Ev.create 1], none) := by
        simp [upload_split_video, hcr]
      rw [hrw]
      refine ⟨by simp [evSeg, List.range'_one], ?_, ?_⟩
      · intro j hj i hi1 hij
        simp [evSeg] at hj
        omega
      · intro j hj1 hjlen hjf hprev
        have hj1' : j = 1 := by
          by_contra hne
          have hcontra := hprev 1 le_rfl (by omega)
          rw [show pubOk cr ap .new 1 = (cr 1).isSome from rfl, hcr] at hcontra
          simp at hcontra
        subst hj1'
        simp [evSeg, List.range'_one]
    | some b =>
      have hrw : upload_split_video cr ap (s :: rest) .new tb =
          (Ev.create 1 :: (appendLoop ap 2 rest (some b)).1,
            (appendLoop ap 2 rest (some b)).2) := by
        simp [upload_split_video, hcr]
      rw [hrw]
      have hmap := appendLoop_map_evSeg ap rest 2 (some b)
      have hone : pubOk cr ap .new 1 = true := by
        rw [show pubOk cr ap .new 1 = (cr 1).isSome from rfl, hcr]
        rfl
      refine ⟨?_, ?_, ?_⟩
      · simp only [List.map_cons, List.length_cons, evSeg]
        rw [hmap, List.range'_succ]
      · intro j hj i hi1 hij
        simp only [List.map_cons, List.mem_cons, evSeg] at hj
        rcases hj with hj | hj
        · omega
        · rw [hmap] at hj
          have hjlt : j < 2 + ((appendLoop ap 2 rest (some b)).1).length := by
            have := List.mem_range'.mp hj
            omega
          rcases Nat.eq_or_lt_of_le hi1 with heq | hlt
          · exact heq ▸ hone
          · rw [pubOk_new_ne_one cr ap i (by omega)]
            exact appendLoop_prefix_ok ap rest 2 (some b) i (by omega) (by omega)
      · intro j hj1 hjlen hjf hprev
        have hj2 : 2 ≤ j := by
          rcases Nat.eq_or_lt_of_le hj1 with heq | hlt
          · exact absurd (heq ▸ hjf) (by rw [hone]; simp)
          · omega
        have habort := appendLoop_abort ap rest 2 (some b) j hj2
          (by simp only [List.length_cons] at hjlen; omega)
          (by rw [← pubOk_new_ne_one cr ap j (by omega)]; exact hjf)
          (fun k hk1 hk2 => by
            rw [← pubOk_new_ne_one cr ap k (by omega)]
            exact hprev k (by omega) hk2)
        refine ⟨?_, habort.2⟩
        simp only [List.map_cons, evSeg]
        have hlen : j + 1 - 2 = j - 1 := by omega
        rw [hmap, habort.1, hlen]
        have hsplit : List.range' 1 j = 1 :: List.range' 2 (j - 1) := by
          have hj' : j = (j - 1) + 1 := by omega
          rw [hj', List.range'_succ]
          simp
        rw [hsplit]

/-- C2 (witness): a 3-segment plan in create mode where segment 1
succeeds and segment 2's append fails: the publish calls are exactly
segments 1 and 2 — zero publish calls for segment 3 — and the task
fails. -/
theorem claim2_witness :
    ((upload_split_video (fun _ => some "BV1") (fun i => decide (i ≠ 2))
        ["s1", "s2", "s3"] .new none).1).map evSeg = [1, 2]
    ∧ (upload_split_video (fun _ => some "BV1") (fun i => decide (i ≠ 2))
        ["s1", "s2", "s3"] .new none).2 = none := by
  have h := (claim2_segment_ordering (fun _ => some "BV1") (fun i => decide (i ≠ 2))
      ["s1", "s2", "s3"] .new none).2.2 2 (by decide) (by decide) (by decide)
      (fun i h1 h2 => by
        have : i = 1 := by omega
        subst this
        decide)
  exact ⟨by rw [h.1]; decide, h.2⟩

/-- When every attempt raises the same error with the same per-attempt
publish trace, the retry loop runs all its attempts, concatenates their
traces, appends exactly one failure entry (with that last error
message), and leaves the success log untouched. -/
theorem attemptLoop_const_fail (cfg : OrchCfg) (t : TaskEnv) (mode : Mode)
    (tb : Option String) (m : String) (tr : Nat → List Ev)
    (hfail : ∀ a, runAttempt cfg t mode tb a = (tr a, .err m)) :
    ∀ (rem : Nat) (a : Nat) (h : UploadHistory), 1 ≤ rem →
      attemptLoop cfg t mode tb a rem h =
        (((List.range rem).map fun k => tr (a + k)).flatten,
          add_failed h t.remote_path m, false) := by
  intro rem
  induction rem with
  | zero => intro a h hrem; omega
  | succ rem ih =>
    intro a h _
    rcases Nat.eq_zero_or_pos rem with hz | hpos
    · subst hz
      have hr1 : List.range 1 = [0] := rfl
      simp [attemptLoop, hfail a, hr1]
    · have hne : rem ≠ 0 := by omega
      have hfun : ∀ k ∈ List.range rem, ((fun k => tr (a + k)) ∘ Nat.succ) k =
          (fun k => tr (a + 1 + k)) k := by
        intro k _
        simp only [Function.comp]
        have harith : a + Nat.succ k = a + 1 + k := by omega
        rw [harith]
      have htr : ((List.range (rem + 1)).map fun k => tr (a + k)).flatten =
          tr a ++ ((List.range rem).map fun k => tr (a + 1 + k)).flatten := by
        rw [List.range_succ_eq_map, List.map_cons, List.flatten_cons, Nat.add_zero,
          List.map_map, List.map_congr_left hfun]
      simp only [attemptLoop, hfail a, hne, if_false]
      rw [ih (a + 1) h hpos, htr]

/-- C3: retry exhaustion in `_upload_single_video` /
`_batch_upload_videos`.  With `retry_times = 3`, a (non-split,
create-mode) task whose path resolution succeeds and whose publish call
fails on every attempt performs exactly 3 publish invocations, appends
exactly one failure entry carrying the last error message ("上传失败"),
never appends a success entry, and returns failure; and the batch loop
always processes every task of the batch, regardless of failures. -/
theorem claim3_retry_exhaustion :
    (∀ (cfg : OrchCfg) (t : TaskEnv) (tb : Option String) (h : UploadHistory),
      cfg.retry_times = 3 →
      needsSplit cfg t.size = false →
      (∀ a, (t.getPath a).isSome) →
      (∀ a, t.create a 1 = none) →
      upload_single_video cfg t .new tb h =
        ([Ev.create 1, Ev.create 1, Ev.create 1],
          ⟨h.history, h.failed ++ [⟨t.remote_path, "上传失败"⟩]⟩, false))
    ∧ (∀ (cfg : OrchCfg) (mode : Mode) (tb : Option String) (tasks : List TaskEnv)
        (h : UploadHistory),
        ((batch_upload_videos cfg mode tb tasks h).1).length = tasks.length) := by
  constructor
  · intro cfg t tb h hretry hns hpath hcreate
    have hrun : ∀ a, runAttempt cfg t .new tb a = ([Ev.create 1], .err "上传失败") := by
      intro a
      rcases Option.isSome_iff_exists.mp (hpath a) with ⟨p, hp⟩
      simp [runAttempt, hp, hns, upload_normal_video, hcreate a]
    rw [upload_single_video, hretry,
      attemptLoop_const_fail cfg t .new tb "上传失败" (fun _ => [Ev.create 1]) hrun 3 0 h
        (by omega)]
    simp [add_failed]
  · intro cfg mode tb tasks
    induction tasks with
    | nil => intro h; simp [batch_upload_videos]
    | cons t rest ih => intro h; simp [batch_upload_videos, ih]

/-- C3 (witness): a concrete task with `retry_times = 3` whose create
call never yields a bvid: three publish calls, one failure entry, no
success entry. -/
theorem claim3_witness :
    upload_single_video ⟨15, 3⟩
        ⟨"g/f.flv", 100, fun _ => some "/tmp/f.flv", fun _ => [],
          fun _ _ => none, fun _ _ => true⟩ .new none ⟨[], []⟩ =
      ([Ev.create 1, Ev.create 1, Ev.create 1],
        ⟨[], [⟨"g/f.flv", "上传失败"⟩]⟩, false) := by
  have h := claim3_retry_exhaustion.1 ⟨15, 3⟩
    ⟨"g/f.flv", 100, fun _ => some "/tmp/f.flv", fun _ => [],
      fun _ _ => none, fun _ _ => true⟩ none ⟨[], []⟩ rfl
    (by unfold needsSplit; norm_num) (fun a => rfl) (fun a => rfl)
  simpa using h

/-- C10: when the create-mode publish process exits with return code 0
but its captured output contains no `bvid:BV…` token, `upload_video`
returns no remote id, and `_upload_single_video` treats every such
attempt as a failure: it retries through all configured attempts (one
publish invocation each), appends a failure entry, and never records a
success — even though the external upload command itself succeeded. -/
theorem claim10_missing_bvid_token (rc : Int) (out : String) (cfg : OrchCfg)
    (t : TaskEnv) (tb : Option String) (h : UploadHistory) :
    rc = 0 → parse_bvid out = none →
    (∀ a, t.create a 1 = upload_video_result rc out) →
    (∀ a, (t.getPath a).isSome) →
    needsSplit cfg t.size = false →
    1 ≤ cfg.retry_times →
    upload_video_result rc out = none ∧
    upload_single_video cfg t .new tb h =
      (((List.range cfg.retry_times).map fun _ => [Ev.create 1]).flatten,
        ⟨h.history, h.failed ++ [⟨t.remote_path, "上传失败"⟩]⟩, false) := by
  intro hrc hparse hcreate hpath hns hretry
  have hres : upload_video_result rc out = none := by
    rw [hrc]
    simp [upload_video_result, hparse]
  refine ⟨hres, ?_⟩
  have hrun : ∀ a, runAttempt cfg t .new tb a = ([Ev.create 1], .err "上传失败") := by
    intro a
    rcases Option.isSome_iff_exists.mp (hpath a) with ⟨p, hp⟩
    simp [runAttempt, hp, hns, upload_normal_video, hcreate a, hres]
  rw [upload_single_video,
    attemptLoop_const_fail cfg t .new tb "上传失败" (fun _ => [Ev.create 1]) hrun
      cfg.retry_times 0 h hretry]
  simp [add_failed]

/-- C10 (witness): exit code 0 with output `"done"` (no `bvid:BV…`
token): no remote id is parsed, the single configured attempt is
treated as a failure, and the ledger gains a failure entry and no
success entry. -/
theorem claim10_witness :
    upload_video_result 0 "done" = none ∧
    upload_single_video ⟨15, 1⟩
        ⟨"g/x.flv", 100, fun _ => some "/tmp/x.flv", fun _ => [],
          fun _ _ => upload_video_result 0 "done", fun _ _ => true⟩ .new none ⟨[], []⟩ =
      ([Ev.create 1], ⟨[], [⟨"g/x.flv", "上传失败"⟩]⟩, false) := by
  have h := claim10_missing_bvid_token 0 "done" ⟨15, 1⟩
    ⟨"g/x.flv", 100, fun _ => some "/tmp/x.flv", fun _ => [],
      fun _ _ => upload_video_result 0 "done", fun _ _ => true⟩ none ⟨[], []⟩
    rfl (by decide) (fun a => rfl) (fun a => rfl) (by unfold needsSplit; norm_num)
    (by decide)
  exact ⟨h.1, by simpa using h.2⟩

/-- C8 (counterexample): the claim that the success entry "carries the
ordered list of segment identifiers whenever the source was split" is
false on the code: a 16 GiB source split into two segments and
published successfully is recorded with `parts = []` (the orchestrator
never passes the `parts` argument to `add_success`), not with
`["s1", "s2"]`. -/
theorem claim8_counterexample :
    upload_single_video ⟨15, 3⟩
        ⟨"g/big.flv", 17179869184, fun _ => some "/tmp/big.flv", fun _ => ["s1", "s2"],
          fun _ _ => some "BVbig", fun _ _ => true⟩ .new none ⟨[], []⟩ =
      ([Ev.create 1, Ev.append 2],
        ⟨[⟨"g/big.flv", 17179869184, some "BVbig", true, []⟩], []⟩, true) := by
  have hns : needsSplit ⟨15, 3⟩ 17179869184 = true := by
    unfold needsSplit
    norm_num
  simp [upload_single_video, attemptLoop, runAttempt, hns, upload_split_video,
    appendLoop, add_success]

/-- C8 (amended): on task success the orchestrator appends exactly one
success entry, keyed by the original source path and original source
size (never segment paths), whose split flag reflects whether the
source was split — but whose segment list is always empty, because
`_upload_single_video` omits the `parts` argument of `add_success`. -/
theorem claim8_success_entry (cfg : OrchCfg) (t : TaskEnv) (mode : Mode)
    (tb : Option String) (h : UploadHistory) (tr : List Ev) (h' : UploadHistory) :
    upload_single_video cfg t mode tb h = (tr, h', true) →
    ∃ b, h' = ⟨h.history ++ [⟨t.remote_path, t.size, b, needsSplit cfg t.size, []⟩],
      h.failed⟩ := by
  rw [upload_single_video]
  generalize 0 = a
  generalize cfg.retry_times = rem
  induction rem generalizing a tr with
  | zero =>
    intro heq
    simp [attemptLoop] at heq
  | succ rem ih =>
    intro heq
    rw [attemptLoop] at heq
    rcases hstep : (runAttempt cfg t mode tb a).2 with bvid | msg
    · rw [hstep] at heq
      refine ⟨bvid, ?_⟩
      have := congrArg (fun x => x.2.1) heq
      simpa [add_success] using this.symm
    · rw [hstep] at heq
      dsimp only at heq
      by_cases hrem : rem = 0
      · rw [if_pos hrem] at heq
        have := congrArg (fun x => x.2.2) heq
        simp at this
      · rw [if_neg hrem] at heq
        have h22 := congrArg (fun x => x.2.2) heq
        have h21 := congrArg (fun x => x.2.1) heq
        simp at h22 h21
        have hnext : attemptLoop cfg t mode tb (a + 1) rem h =
            ((attemptLoop cfg t mode tb (a + 1) rem h).1, h', true) := by
          rw [← h21, ← h22]
        exact ih _ (a + 1) hnext

/-- C8 (witness): the amended theorem applied to the concrete split
run: the single appended entry is keyed by the original path and size,
flagged split, with an empty parts list. -/
theorem claim8_witness :
    ∃ b, (⟨[⟨"g/big.flv", 17179869184, some "BVbig", true, []⟩], []⟩ : UploadHistory) =
      ⟨[] ++ [⟨"g/big.flv", 17179869184, b, needsSplit ⟨15, 3⟩ 17179869184, []⟩], []⟩ := by
  refine claim8_success_entry ⟨15, 3⟩
    ⟨"g/big.flv", 17179869184, fun _ => some "/tmp/big.flv", fun _ => ["s1", "s2"],
      fun _ _ => some "BVbig", fun _ _ => true⟩ .new none ⟨[], []⟩
    [Ev.create 1, Ev.append 2]
    ⟨[⟨"g/big.flv", 17179869184, some "BVbig", true, []⟩], []⟩ ?_
  have hns : needsSplit ⟨15, 3⟩ 17179869184 = true := by
    unfold needsSplit
    norm_num
  simp [upload_single_video, attemptLoop, runAttempt, hns, upload_split_video,
    appendLoop, add_success]

/-- C5: revalidation semantics of `prune_invalid_records`.  Every
success entry is checked (`checked` = log length); exactly those
entries whose remote id fails the injected existence predicate, or that
have no (truthy) remote id at all, are removed; one failure entry per
removed entry is appended; the return value is `(checked, removed)`.
On the concrete 5-entry ledger with 2 invalid ids the call returns
`(5, 2)`, leaves 3 success entries, and adds 2 failure entries. -/
theorem claim5_revalidation :
    (∀ (h : UploadHistory) (validate : String → Bool),
      (prune_invalid_records h validate).2.1 = h.history.length
      ∧ (prune_invalid_records h validate).2.2 =
          (h.history.filter fun r => !(recordValid validate r)).length
      ∧ (prune_invalid_records h validate).1.history =
          h.history.filter (recordValid validate)
      ∧ (prune_invalid_records h validate).1.failed =
          h.failed ++ (h.history.filter fun r => !(recordValid validate r)).map pruneFailEntry)
    ∧ prune_invalid_records
        ⟨[⟨"f1", 1, some "BV1", false, []⟩, ⟨"f2", 2, some "BV2", false, []⟩,
          ⟨"f3", 3, some "BV3", false, []⟩, ⟨"f4", 4, some "BV4", false, []⟩,
          ⟨"f5", 5, some "BV5", false, []⟩], []⟩
        (fun b => !(b = "BV2" || b = "BV4")) =
      (⟨[⟨"f1", 1, some "BV1", false, []⟩, ⟨"f3", 3, some "BV3", false, []⟩,
          ⟨"f5", 5, some "BV5", false, []⟩],
        [⟨"f2", "历史记录校验失败，稿件 BV2 不存在或已删除"⟩,
          ⟨"f4", "历史记录校验失败，稿件 BV4 不存在或已删除"⟩]⟩, 5, 2) := by
  constructor
  · intro h validate
    by_cases hinv : (h.history.filter fun r => !(recordValid validate r)).isEmpty
    · have hnil : (h.history.filter fun r => !(recordValid validate r)) = [] :=
        List.isEmpty_iff.mp hinv
      have hall : ∀ r ∈ h.history, recordValid validate r = true := by
        intro r hr
        have := List.filter_eq_nil_iff.mp hnil r hr
        simpa using this
      have hself : h.history.filter (recordValid validate) = h.history :=
        List.filter_eq_self.mpr hall
      simp [prune_invalid_records, hinv, hnil, hself]
    · simp [prune_invalid_records, hinv]
  · decide

/-- C4 (counterexample): the claim that revalidation "either rewrites
the whole success log with exactly the valid subset or, on persistence
failure, leaves the log unchanged — a partially rewritten log is never
observable" is false on the code: `_save_history` opens the ledger file
with `'w'` (truncating it) and writes the JSON in place, so a write
that fails immediately after the truncation leaves an empty file —
neither the old log nor the new valid subset — while the swallowed
exception lets the in-memory log keep the pruned state. -/
theorem claim4_counterexample :
    (prune_invalid_records_files
        ⟨[⟨"a.flv", 1, some "BVa", false, []⟩, ⟨"b.flv", 2, some "BVb", false, []⟩], [],
          serializeHistory [⟨"a.flv", 1, some "BVa", false, []⟩,
            ⟨"b.flv", 2, some "BVb", false, []⟩], serializeFailed []⟩
        (fun b => b = "BVa") (.failAfter 0)).1.historyFile = ""
    ∧ "" ≠ serializeHistory [⟨"a.flv", 1, some "BVa", false, []⟩,
        ⟨"b.flv", 2, some "BVb", false, []⟩]
    ∧ "" ≠ serializeHistory [⟨"a.flv", 1, some "BVa", false, []⟩]
    ∧ (prune_invalid_records_files
        ⟨[⟨"a.flv", 1, some "BVa", false, []⟩, ⟨"b.flv", 2, some "BVb", false, []⟩], [],
          serializeHistory [⟨"a.flv", 1, some "BVa", false, []⟩,
            ⟨"b.flv", 2, some "BVb", false, []⟩], serializeFailed []⟩
        (fun b => b = "BVa") (.failAfter 0)).1.historyMem =
      [⟨"a.flv", 1, some "BVa", false, []⟩] := by
  refine ⟨?_, by decide, by decide, ?_⟩ <;> decide

/-- C4 (amended): every mutation of the success log rewrites the whole
persisted file in place, but not atomically: when nothing is removed no
file is touched; when the write completes, the file holds exactly the
serialization of the valid subset; when the write fails after `k`
characters, the file holds a prefix of the new serialization (the
truncation already destroyed the old content) and the in-memory log
keeps the mutation regardless (the exception is swallowed). -/
theorem claim4_persistence (st : LedgerFiles) (validate : String → Bool) (o : SaveOutcome) :
    ((st.historyMem.filter fun r => !(recordValid validate r)) = [] →
      prune_invalid_records_files st validate o = (st, st.historyMem.length, 0))
    ∧ ((st.historyMem.filter fun r => !(recordValid validate r)) ≠ [] → o = .ok →
        (prune_invalid_records_files st validate o).1.historyFile =
          serializeHistory (st.historyMem.filter (recordValid validate))
        ∧ (prune_invalid_records_files st validate o).1.historyMem =
            st.historyMem.filter (recordValid validate))
    ∧ (∀ k, (st.historyMem.filter fun r => !(recordValid validate r)) ≠ [] →
        o = .failAfter k →
        (prune_invalid_records_files st validate o).1.historyFile =
          (serializeHistory (st.historyMem.filter (recordValid validate))).take k
        ∧ (prune_invalid_records_files st validate o).1.historyMem =
            st.historyMem.filter (recordValid validate)) := by
  refine ⟨?_, ?_, ?_⟩
  · intro hnil
    simp [prune_invalid_records_files, hnil]
  · intro hne hok
    subst hok
    have hinv : ¬(st.historyMem.filter fun r => !(recordValid validate r)).isEmpty := by
      simpa [List.isEmpty_iff] using hne
    simp [prune_invalid_records_files, hinv, save_history_file]
  · intro k hne hko
    subst hko
    have hinv : ¬(st.historyMem.filter fun r => !(recordValid validate r)).isEmpty := by
      simpa [List.isEmpty_iff] using hne
    simp [prune_invalid_records_files, hinv, save_history_file]

/-- C4 (witness): the amended theorem on a concrete two-record ledger
with one stale record and a completing write: the file afterwards holds
exactly the serialized valid subset. -/
theorem claim4_witness :
    (prune_invalid_records_files
        ⟨[⟨"c.flv", 3, some "BVc", false, []⟩, ⟨"d.flv", 4, some "BVd", false, []⟩], [],
          serializeHistory [⟨"c.flv", 3, some "BVc", false, []⟩,
            ⟨"d.flv", 4, some "BVd", false, []⟩], serializeFailed []⟩
        (fun b => b = "BVc") .ok).1.historyFile =
      serializeHistory
        ([⟨"c.flv", 3, some "BVc", false, []⟩,
          ⟨"d.flv", 4, some "BVd", false, []⟩].filter
            (recordValid fun b => b = "BVc")) := by
  exact (claim4_persistence
    ⟨[⟨"c.flv", 3, some "BVc", false, []⟩, ⟨"d.flv", 4, some "BVd", false, []⟩], [],
      serializeHistory [⟨"c.flv", 3, some "BVc", false, []⟩,
        ⟨"d.flv", 4, some "BVd", false, []⟩], serializeFailed []⟩
    (fun b => b = "BVc") .ok).2.1 (by decide) rfl |>.1

/-- C6: the disk-space guard of `_get_video_path`.  Whenever a local
copy is needed (the mount branch yields no path — in particular
whenever the task requires splitting), the resolver rejects with no
path and without ever invoking the download call exactly when
`free_space - file_size < min_free_space_gb * 1024³`; and on the
concrete scenario free = 10 GiB, size = 8 GiB, floor = 5 GB the request
is rejected before any download. -/
theorem claim6_disk_guard (env : PathEnv) (gb : ℚ) (size : Nat) (ns : Bool)
    (lp : String) :
    mountResult env ns = none →
    ((((env.free : ℚ) - (size : ℚ) < gb * 2 ^ 30) ↔
      ((get_video_path env gb size ns lp).2 = none
        ∧ PathEv.downloadCall ∉ (get_video_path env gb size ns lp).1))
    ∧ get_video_path ⟨false, true, none, 10 * 2 ^ 30, true⟩ 5 (8 * 2 ^ 30) true "dl"
        = ([], none)) := by
  intro hmr
  constructor
  · by_cases hlt : (env.free : ℚ) - (size : ℚ) < gb * 2 ^ 30
    · have h2 : (get_video_path env gb size ns lp).2 = none := by
        simp [get_video_path, hmr, hlt]
      have h1 : PathEv.downloadCall ∉ (get_video_path env gb size ns lp).1 := by
        simp only [get_video_path, hmr, if_pos hlt]
        by_cases hm : ns || env.alreadyMounted <;> simp [hm]
      exact iff_of_true hlt ⟨h2, h1⟩
    · refine iff_of_false hlt ?_
      rintro ⟨-, hno⟩
      simp only [get_video_path, hmr, if_neg hlt] at hno
      by_cases hdl : env.downloadOk <;> simp [hdl] at hno
  · norm_num [get_video_path, mountResult]

/-- C6 (witness): split required, free = 10 GiB, size = 8 GiB,
floor = 5 GB: the resolver returns no path and its trace holds no
download call. -/
theorem claim6_witness :
    (get_video_path ⟨false, true, none, 10 * 2 ^ 30, true⟩ 5 (8 * 2 ^ 30) true "dl").2 = none
    ∧ PathEv.downloadCall ∉
        (get_video_path ⟨false, true, none, 10 * 2 ^ 30, true⟩ 5 (8 * 2 ^ 30) true "dl").1 := by
  refine ((claim6_disk_guard ⟨false, true, none, 10 * 2 ^ 30, true⟩ 5 (8 * 2 ^ 30) true "dl"
    rfl).1).mp ?_
  norm_num

/-- C7: split-plan arithmetic of `VideoProcessor.split_video`.  With a
determined nonzero duration `d`, the planner issues one cut per part:
`part_count = ceil(size_gb / max_part_size_gb)` cuts, cut `i`
(0-based) starting at `i * (d / part_count)` with length
`d / part_count`, into the deterministically named part file `i+1`.  In
particular `size_gb = 29, max = 14.5` gives 2 parts; `size_gb = 14.4`
gives 1 part, and a 14.4 GB file (15461882266 bytes) is below the
15 GB threshold, hence never split by the orchestrator. -/
theorem claim7_split_arithmetic :
    (∀ (dir base : String) (size max d : ℚ) (mat : Nat → Bool), d ≠ 0 →
      (split_video dir base size max (some d) mat).1 =
        (List.range (num_parts size max)).map fun (i : ℕ) =>
          ((⟨(i : ℚ) * (d / (num_parts size max : ℚ)), d / (num_parts size max : ℚ),
            outName dir base (i + 1)⟩ : CutCmd)))
    ∧ num_parts 29 14.5 = 2
    ∧ num_parts 14.4 14.5 = 1
    ∧ needsSplit ⟨15, 3⟩ 15461882266 = false := by
  refine ⟨?_, ?_, ?_, ?_⟩
  · intro dir base size max d mat hd
    simp [split_video, split_cuts, hd]
  · unfold num_parts
    rw [show ⌈(29 : ℚ) / 14.5⌉ = 2 from by norm_num]
    rfl
  · unfold num_parts
    rw [show ⌈(14.4 : ℚ) / 14.5⌉ = 1 from by norm_num [Int.ceil_eq_iff]]
    rfl
  · unfold needsSplit
    norm_num

/-- C7 (witness): the cut list for `size_gb = 29, max = 14.5,
duration = 100`: two cuts of 50 seconds each at 0 and 50, into
`o/v_part1.flv` and `o/v_part2.flv`. -/
theorem claim7_witness :
    (split_video "o" "v" 29 14.5 (some 100) (fun _ => true)).1 =
      (List.range (num_parts 29 14.5)).map fun (i : ℕ) =>
        ((⟨(i : ℚ) * (100 / (num_parts 29 14.5 : ℚ)), 100 / (num_parts 29 14.5 : ℚ),
          outName "o" "v" (i + 1)⟩ : CutCmd)) :=
  claim7_split_arithmetic.1 "o" "v" 29 14.5 100 (fun _ => true) (by norm_num)

/-- The split loop's accumulator collects, in index order, exactly the
output names of the indices whose cut materialized on disk. -/
theorem splitCollect_filterMap (mat : Nat → Bool) (dir base : String) :
    ∀ (rem i : Nat),
      splitCollect mat dir base i rem =
        (List.range' i rem).filterMap fun k =>
          if mat k then some (outName dir base (k + 1)) else none := by
  intro rem
  induction rem with
  | zero => intro i; simp [splitCollect]
  | succ rem ih =>
    intro i
    rw [List.range'_succ]
    by_cases hm : mat i
    · simp [splitCollect, hm, ih (i + 1)]
    · simp [splitCollect, hm, ih (i + 1)]

/-- C9: failure policy of `VideoProcessor.split_video`.  If the total
duration cannot be determined (ffprobe failure, or the falsy value
`0.0`), the planner returns no cuts and no segments; otherwise a
segment whose output file does not materialize is skipped while the
loop continues, and the returned list is exactly the subset of segment
paths whose files exist, in index order. -/
theorem claim9_split_failure_policy :
    (∀ (dir base : String) (size max : ℚ) (mat : Nat → Bool),
      split_video dir base size max none mat = ([], []))
    ∧ (∀ (dir base : String) (size max : ℚ) (mat : Nat → Bool),
      split_video dir base size max (some 0) mat = ([], []))
    ∧ (∀ (dir base : String) (size max d : ℚ) (mat : Nat → Bool), d ≠ 0 →
      (split_video dir base size max (some d) mat).2 =
        (List.range (num_parts size max)).filterMap fun i =>
          if mat i then some (outName dir base (i + 1)) else none) := by
  refine ⟨?_, ?_, ?_⟩
  · intro dir base size max mat
    simp [split_video]
  · intro dir base size max mat
    simp [split_video]
  · intro dir base size max d mat hd
    simp only [split_video, hd, if_false]
    rw [splitCollect_filterMap, List.range_eq_range']

/-- C9 (witness): a 2-part plan where the first cut fails to
materialize and the second succeeds: the planner returns exactly the
second part, having continued past the failure. -/
theorem claim9_witness :
    (split_video "o" "v" 29 14.5 (some 100) (fun i => decide (i ≠ 0))).2 =
      ["o/v_part2.flv"] := by
  have h := claim9_split_failure_policy.2.2 "o" "v" 29 14.5 100
    (fun i => decide (i ≠ 0)) (by norm_num)
  have hn : num_parts 29 14.5 = 2 := by
    unfold num_parts
    rw [show ⌈(29 : ℚ) / 14.5⌉ = 2 from by norm_num]
    rfl
  rw [h, hn]
  decide

end Biliup
